import Mathlib

/-!
Shallow embedding of the USP_VIREL protocol state machine.

The repository holds two Python implementations of the same machine:
`src/USP-VIREL.py` (the core, embedded below in namespace `USPVirel`) and
`src/usp_cli.py` (a near-duplicate, embedded in namespace `Cli`).

Python `print` side effects are modelled as an event list in the result of
the mutating core operations; Python exceptions (`ValueError` raised for
unknown domain/token, `AssertionError` raised by invariant checks) are
modelled with an `Except` result.  Because Python mutates the object in
place and an exception propagates after any mutation already performed,
every operation returns the post-call machine alongside the
`Except`-wrapped return value.
-/

/-- View of an `Except` value as a sum, to derive decidable equality. -/
def exceptToSum {ε α : Type} (e : Except ε α) : ε ⊕ α :=
  match e with
  | .error x => .inl x
  | .ok x => .inr x

instance {ε α : Type} [DecidableEq ε] [DecidableEq α] :
    DecidableEq (Except ε α) := fun a b =>
  decidable_of_iff (exceptToSum a = exceptToSum b) (by
    cases a <;> cases b <;> simp [exceptToSum])

namespace USPVirel

/-- `State = Literal["OPERATIONAL", "SAFE_ON"]`. -/
inductive St where
  | OPERATIONAL
  | SAFE_ON
deriving DecidableEq

/-- Python exceptions raised by the machine: `ValueError` for caller-contract
violations, `AssertionError` for invariant/assert failures. -/
inductive Err where
  | valueError (msg : String)
  | assertionError (msg : String)
deriving DecidableEq

/-- Trace events printed by the mutating core operations:
`("CAST", token, "IN", domain)` and `("HALT QUORUM FOR", d, "→ SAFE_ON")`. -/
inductive Event where
  | cast (token domain : String)
  | haltQuorum (domain : String)
deriving DecidableEq

/-- `USPVirelConfig` dataclass: `domains`, `tokens`, `epoch_max`,
`lamport_max`, `hold_ms`. -/
structure Config where
  domains : List String
  tokens : List String
  epoch_max : Int
  lamport_max : Int
  hold_ms : Int
deriving DecidableEq

/-- The mutable `USPVirel` dataclass state.  `quorum_votes` is a Python dict
from domain to vote sequence, modelled as an association list in insertion
order. -/
structure Machine where
  cfg : Config
  state : St
  epoch : Int
  lamport : Int
  quorum_votes : List (String × List String)
  provisional_timer : Int
deriving DecidableEq

/-- `self.quorum_votes[d]` (total here; under TYPE-OK every configured domain
has an entry, so the `[]` default is never observable from valid states). -/
def lookupVotes (qv : List (String × List String)) (d : String) : List String :=
  match qv.find? (fun p => p.1 == d) with
  | some p => p.2
  | none => []

/-- `self.quorum_votes[domain].append(token)`. -/
def updateVotes (qv : List (String × List String)) (d t : String) :
    List (String × List String) :=
  qv.map (fun p => if p.1 == d then (p.1, p.2 ++ [t]) else p)

/-- Whether the dict has a binding for key `d`. -/
def hasKey (qv : List (String × List String)) (d : String) : Bool :=
  qv.any (fun p => p.1 == d)

/-- One step of the dict comprehension `{d: [] for d in domains}`: a Python
dict keeps a single binding per key, in first-insertion order. -/
def insertKey (qv : List (String × List String)) (d : String) :
    List (String × List String) :=
  if hasKey qv d then qv else qv ++ [(d, [])]

/-- `{d: [] for d in self.cfg.domains}`. -/
def initVotes (domains : List String) : List (String × List String) :=
  domains.foldl insertKey []

/-- `set(self.quorum_votes.keys()) == set(self.cfg.domains)`. -/
def SameKeys (qv : List (String × List String)) (domains : List String) : Prop :=
  (∀ p ∈ qv, p.1 ∈ domains) ∧ ∀ d ∈ domains, d ∈ qv.map Prod.fst

instance (qv : List (String × List String)) (domains : List String) :
    Decidable (SameKeys qv domains) := by
  unfold SameKeys; infer_instance

/-- `_check_type_ok`: the TypeOK assertions, in source order.  The
`state ∈ {OPERATIONAL, SAFE_ON}` and `isinstance` asserts are trivially true
in this embedding. -/
def check_type_ok (m : Machine) : Except Err Unit :=
  if ¬ (0 ≤ m.epoch ∧ m.epoch ≤ m.cfg.epoch_max) then
    .error (.assertionError "Epoch out of bounds")
  else if ¬ (0 ≤ m.lamport ∧ m.lamport ≤ m.cfg.lamport_max) then
    .error (.assertionError "Lamport out of bounds")
  else if ¬ SameKeys m.quorum_votes m.cfg.domains then
    .error (.assertionError "quorum_votes must have exactly one entry per domain")
  else if ¬ (∀ p ∈ m.quorum_votes, ∀ t ∈ p.2, t ∈ m.cfg.tokens) then
    .error (.assertionError "Unknown token in quorum_votes")
  else if ¬ (0 ≤ m.provisional_timer) then
    .error (.assertionError "provisional_timer must be a natural number")
  else
    .ok ()

/-- `_check_safe_state`: `state = SAFE_ON` requires some configured domain
whose vote sequence contains `"HALT"` (`_has_halt`). -/
def check_safe_state (m : Machine) : Except Err Unit :=
  if m.state = .SAFE_ON then
    if ∃ d ∈ m.cfg.domains, "HALT" ∈ lookupVotes m.quorum_votes d then
      .ok ()
    else
      .error (.assertionError "SafeState violated: SAFE_ON without HALT quorum")
  else
    .ok ()

/-- The field assignment performed by the `USPVirel(...)` dataclass
constructor together with `__post_init__`'s synthesis of empty vote
sequences (`if not self.quorum_votes`). -/
def initState (cfg : Config) (state : St) (epoch lamport : Int)
    (qv : List (String × List String)) (timer : Int) : Machine :=
  ⟨cfg, state, epoch, lamport,
    if qv.isEmpty then initVotes cfg.domains else qv, timer⟩

/-- `USPVirel(...)` construction: `__post_init__` synthesizes empty vote
sequences when none are given and runs `_check_type_ok`. -/
def mkMachine (cfg : Config) (state : St) (epoch lamport : Int)
    (qv : List (String × List String)) (timer : Int) : Except Err Machine :=
  match check_type_ok (initState cfg state epoch lamport qv timer) with
  | .ok _ => .ok (initState cfg state epoch lamport qv timer)
  | .error e => .error e

/-- `USPVirel(cfg)`: construction with the dataclass defaults
(`state=OPERATIONAL`, `epoch=0`, `lamport=0`, empty votes, `timer=0`). -/
def mkDefault (cfg : Config) : Except Err Machine :=
  mkMachine cfg .OPERATIONAL 0 0 [] 0

/-- The mutation `self.quorum_votes[domain].append(token)` performed by
`cast_vote` on the machine. -/
def appendVote (m : Machine) (domain token : String) : Machine :=
  { m with quorum_votes := updateVotes m.quorum_votes domain token }

/-- The mutation `state' = SAFE_ON, lamport' = lamport + 1` performed by
`halt_precedence` on the machine. -/
def bump (m : Machine) : Machine :=
  { m with state := St.SAFE_ON, lamport := m.lamport + 1 }

/-- `cast_vote(domain, token)`. -/
def cast_vote (m : Machine) (domain token : String) :
    Machine × Except Err Bool × List Event :=
  if domain ∉ m.cfg.domains then
    (m, .error (.valueError ("Unknown domain: " ++ domain)), [])
  else if token ∉ m.cfg.tokens then
    (m, .error (.valueError ("Unknown token: " ++ token)), [])
  else if m.state ≠ .OPERATIONAL then
    (m, .ok false, [])
  else if 2 ≤ (lookupVotes m.quorum_votes domain).length then
    (m, .ok false, [])
  else
    match check_type_ok (appendVote m domain token) with
    | .error e => (appendVote m domain token, .error e, [.cast token domain])
    | .ok _ =>
      match check_safe_state (appendVote m domain token) with
      | .error e => (appendVote m domain token, .error e, [.cast token domain])
      | .ok _ => (appendVote m domain token, .ok true, [.cast token domain])

/-- The loop guard of `halt_precedence`:
`len(quorum_votes[d]) >= 2 and _has_halt(d)`. -/
def qualifies (m : Machine) (d : String) : Bool :=
  decide (2 ≤ (lookupVotes m.quorum_votes d).length) &&
    decide ("HALT" ∈ lookupVotes m.quorum_votes d)

/-- The `for d in self.cfg.domains` loop body of `halt_precedence`. -/
def halt_loop (m : Machine) : List String → Machine × Except Err Bool × List Event
  | [] => (m, .ok false, [])
  | d :: ds =>
    if qualifies m d then
      if m.cfg.lamport_max ≤ m.lamport then
        (m, .error (.assertionError "LamportMax would be exceeded"), [])
      else
        match check_type_ok (bump m) with
        | .error e => (bump m, .error e, [.haltQuorum d])
        | .ok _ =>
          match check_safe_state (bump m) with
          | .error e => (bump m, .error e, [.haltQuorum d])
          | .ok _ => (bump m, .ok true, [.haltQuorum d])
    else halt_loop m ds

/-- `halt_precedence()`. -/
def halt_precedence (m : Machine) : Machine × Except Err Bool × List Event :=
  if m.state ≠ .OPERATIONAL then (m, .ok false, [])
  else halt_loop m m.cfg.domains

/-- `safe_on_stays_safe()`. -/
def safe_on_stays_safe (m : Machine) : Machine × Except Err Bool :=
  if m.state ≠ .SAFE_ON then (m, .ok false)
  else
    match check_type_ok m with
    | .error e => (m, .error e)
    | .ok _ =>
      match check_safe_state m with
      | .error e => (m, .error e)
      | .ok _ => (m, .ok true)

/-- `idle()`: checks invariants, returns `None`. -/
def idle (m : Machine) : Machine × Except Err Unit :=
  match check_type_ok m with
  | .error e => (m, .error e)
  | .ok _ => (m, check_safe_state m)

/-- `auto_step()`: `halt_precedence` first; else `safe_on_stays_safe` when
`SAFE_ON`; else `idle`.  Returns `None` in the source, so only errors are
reflected in the result. -/
def auto_step (m : Machine) : Machine × Except Err Unit × List Event :=
  match halt_precedence m with
  | (m2, .error e, evs) => (m2, .error e, evs)
  | (m2, .ok true, evs) => (m2, .ok (), evs)
  | (m2, .ok false, _) =>
    if m2.state = .SAFE_ON then
      match safe_on_stays_safe m2 with
      | (m3, .error e) => (m3, .error e, [])
      | (m3, .ok _) => (m3, .ok (), [])
    else
      match idle m2 with
      | (m3, .error e) => (m3, .error e, [])
      | (m3, .ok _) => (m3, .ok (), [])

/-- The public operations a caller can apply to the machine. -/
inductive Op where
  | castVote (domain token : String)
  | haltPrecedence
  | safeOnStaysSafe
  | idleOp
  | autoAdvance
deriving DecidableEq

/-- Apply one public operation and keep the post-call machine (the Python
object after the call, whether it returned or raised). -/
def applyOp (m : Machine) : Op → Machine
  | .castVote d t => (cast_vote m d t).1
  | .haltPrecedence => (halt_precedence m).1
  | .safeOnStaysSafe => (safe_on_stays_safe m).1
  | .idleOp => (idle m).1
  | .autoAdvance => (auto_step m).1

/-- Run a sequence of public operations. -/
def run (m : Machine) (ops : List Op) : Machine :=
  ops.foldl applyOp m

/-- TYPE-OK as a proposition: `_check_type_ok` passes. -/
def TypeOk (m : Machine) : Prop := check_type_ok m = .ok ()

/-- SAFE-STATE as a proposition: `_check_safe_state` passes. -/
def SafeState (m : Machine) : Prop := check_safe_state m = .ok ()

/-- Both invariants (`assert_invariants` passes). -/
def Inv (m : Machine) : Prop := TypeOk m ∧ SafeState m

/-- The bounded-votes property: every domain's sequence has at most 2 votes. -/
def VoteBound (m : Machine) : Prop :=
  ∀ d, (lookupVotes m.quorum_votes d).length ≤ 2

end USPVirel

namespace Cli

open USPVirel (St Err Event Config Machine lookupVotes updateVotes qualifies
  appendVote bump)

/-- `_check_type_ok` of `src/usp_cli.py`: epoch, lamport and token checks
only — unlike the core it does not compare `quorum_votes` keys with the
configured domains and does not require `provisional_timer ≥ 0`; its
asserts carry no messages. -/
def check_type_ok (m : Machine) : Except Err Unit :=
  if ¬ (0 ≤ m.epoch ∧ m.epoch ≤ m.cfg.epoch_max) then
    .error (.assertionError "")
  else if ¬ (0 ≤ m.lamport ∧ m.lamport ≤ m.cfg.lamport_max) then
    .error (.assertionError "")
  else if ¬ (∀ p ∈ m.quorum_votes, ∀ t ∈ p.2, t ∈ m.cfg.tokens) then
    .error (.assertionError "")
  else
    .ok ()

/-- `_check_safe_state` of `src/usp_cli.py` (same condition as the core). -/
def check_safe_state (m : Machine) : Except Err Unit :=
  if m.state = .SAFE_ON then
    if ∃ d ∈ m.cfg.domains, "HALT" ∈ lookupVotes m.quorum_votes d then
      .ok ()
    else
      .error (.assertionError "Invariant violation: SAFE_ON without HALT quorum.")
  else
    .ok ()

/-- `assert_invariants` of `src/usp_cli.py`. -/
def assert_invariants (m : Machine) : Except Err Unit :=
  match check_type_ok m with
  | .error e => .error e
  | .ok _ => check_safe_state m

/-- `cast_vote(d, token)` of `src/usp_cli.py`: checks the state guard first
and reports unknown domains/tokens by returning `False`, not by raising. -/
def cast_vote (m : Machine) (d token : String) : Machine × Except Err Bool :=
  if m.state ≠ .OPERATIONAL then (m, .ok false)
  else if d ∉ m.cfg.domains then (m, .ok false)
  else if token ∉ m.cfg.tokens then (m, .ok false)
  else if 2 ≤ (lookupVotes m.quorum_votes d).length then (m, .ok false)
  else
    match assert_invariants (appendVote m d token) with
    | .error e => (appendVote m d token, .error e)
    | .ok _ => (appendVote m d token, .ok true)

/-- The `for d in self.cfg.domains` loop of the CLI `halt_precedence`; it has
no `lamport_max` pre-check before mutating. -/
def halt_loop (m : Machine) : List String → Machine × Except Err Bool
  | [] => (m, .ok false)
  | d :: ds =>
    if qualifies m d then
      match assert_invariants (bump m) with
      | .error e => (bump m, .error e)
      | .ok _ => (bump m, .ok true)
    else halt_loop m ds

/-- `halt_precedence()` of `src/usp_cli.py`. -/
def halt_precedence (m : Machine) : Machine × Except Err Bool :=
  if m.state ≠ .OPERATIONAL then (m, .ok false)
  else halt_loop m m.cfg.domains

/-- `safe_on_stays_safe()` of `src/usp_cli.py`. -/
def safe_on_stays_safe (m : Machine) : Machine × Except Err Bool :=
  if m.state = .SAFE_ON then
    match assert_invariants m with
    | .error e => (m, .error e)
    | .ok _ => (m, .ok true)
  else (m, .ok false)

/-- `idle()` of `src/usp_cli.py`: checks invariants and returns `True`. -/
def idle (m : Machine) : Machine × Except Err Bool :=
  match assert_invariants m with
  | .error e => (m, .error e)
  | .ok _ => (m, .ok true)

/-- `step()` of `src/usp_cli.py`: `halt_precedence` first, then
`safe_on_stays_safe` when `SAFE_ON`, else `idle`; returns a string tag naming
the action that ran. -/
def step (m : Machine) : Machine × Except Err String :=
  match halt_precedence m with
  | (m2, .error e) => (m2, .error e)
  | (m2, .ok true) => (m2, .ok "halt_precedence")
  | (m2, .ok false) =>
    if m2.state = .SAFE_ON then
      match safe_on_stays_safe m2 with
      | (m3, .error e) => (m3, .error e)
      | (m3, .ok _) => (m3, .ok "safe_on")
    else
      match idle m2 with
      | (m3, .error e) => (m3, .error e)
      | (m3, .ok _) => (m3, .ok "idle")

end Cli

namespace USPVirel

/-! ### Association-list lemmas -/

theorem hasKey_iff_mem_keys (qv : List (String × List String)) (d : String) :
    hasKey qv d = true ↔ d ∈ qv.map Prod.fst := by
  unfold hasKey
  rw [List.any_eq_true]
  constructor
  · rintro ⟨p, hp, hbeq⟩
    rw [beq_iff_eq] at hbeq
    exact hbeq ▸ List.mem_map_of_mem Prod.fst hp
  · intro hx
    rcases List.mem_map.mp hx with ⟨p, hp, hfst⟩
    exact ⟨p, hp, by rw [beq_iff_eq, hfst]⟩

theorem updateVotes_keys (qv : List (String × List String)) (d t : String) :
    (updateVotes qv d t).map Prod.fst = qv.map Prod.fst := by
  unfold updateVotes
  induction qv with
  | nil => rfl
  | cons p ps ih =>
    rw [List.map_cons, List.map_cons, List.map_cons] at *
    by_cases h : (p.1 == d) = true
    · rw [if_pos h, ih]
    · rw [if_neg h, ih]

theorem mem_updateVotes {qv : List (String × List String)} {d t : String}
    {p : String × List String} (h : p ∈ updateVotes qv d t) :
    p ∈ qv ∨ ∃ p2 ∈ qv, p2.1 = d ∧ p = (p2.1, p2.2 ++ [t]) := by
  unfold updateVotes at h
  rcases List.mem_map.mp h with ⟨p2, hp2, hEq⟩
  by_cases hd : (p2.1 == d) = true
  · rw [if_pos hd] at hEq
    exact Or.inr ⟨p2, hp2, beq_iff_eq.mp hd, hEq.symm⟩
  · rw [if_neg hd] at hEq
    exact Or.inl (hEq ▸ hp2)

theorem updateVotes_no_key {qv : List (String × List String)} {d : String}
    (t : String) (h : hasKey qv d = false) : updateVotes qv d t = qv := by
  unfold updateVotes
  unfold hasKey at h
  induction qv with
  | nil => rfl
  | cons p ps ih =>
    rw [List.any_cons, Bool.or_eq_false_iff] at h
    rw [List.map_cons, if_neg (by simp [h.1]), ih h.2]

theorem lookupVotes_updateVotes_ne (qv : List (String × List String))
    {d d2 : String} (t : String) (h : d2 ≠ d) :
    lookupVotes (updateVotes qv d t) d2 = lookupVotes qv d2 := by
  unfold lookupVotes updateVotes
  induction qv with
  | nil => rfl
  | cons p ps ih =>
    rw [List.map_cons]
    by_cases hd : (p.1 == d) = true
    · have h2 : ¬ ((p.1 == d2) = true) := by
        rw [beq_iff_eq] at hd ⊢
        rw [hd]
        exact fun hc => h hc.symm
      rw [if_pos hd]
      rw [List.find?_cons_of_neg _ (by simpa using h2),
        List.find?_cons_of_neg _ (by simpa using h2)]
      exact ih
    · rw [if_neg hd]
      by_cases h3 : (p.1 == d2) = true
      · rw [List.find?_cons_of_pos _ (by simpa using h3),
          List.find?_cons_of_pos _ (by simpa using h3)]
      · rw [List.find?_cons_of_neg _ (by simpa using h3),
          List.find?_cons_of_neg _ (by simpa using h3)]
        exact ih

theorem lookupVotes_updateVotes_self (qv : List (String × List String))
    {d : String} (t : String) (h : hasKey qv d = true) :
    lookupVotes (updateVotes qv d t) d = lookupVotes qv d ++ [t] := by
  unfold lookupVotes updateVotes
  unfold hasKey at h
  induction qv with
  | nil => simp at h
  | cons p ps ih =>
    rw [List.map_cons]
    by_cases hd : (p.1 == d) = true
    · rw [if_pos hd]
      rw [List.find?_cons_of_pos _ (by simpa using hd),
        List.find?_cons_of_pos _ (by simpa using hd)]
    · rw [if_neg hd]
      rw [List.any_cons, Bool.or_eq_true] at h
      rcases h with h | h
      · exact absurd h hd
      · rw [List.find?_cons_of_neg _ (by simpa using hd),
          List.find?_cons_of_neg _ (by simpa using hd)]
        exact ih h

/-! ### `initVotes` lemmas -/

theorem insertKey_keys (qv : List (String × List String)) (d x : String) :
    x ∈ (insertKey qv d).map Prod.fst ↔ x ∈ qv.map Prod.fst ∨ x = d := by
  unfold insertKey
  by_cases h : hasKey qv d
  · rw [if_pos h]
    constructor
    · exact fun hx => Or.inl hx
    · rintro (hx | rfl)
      · exact hx
      · exact (hasKey_iff_mem_keys qv x).mp h
  · rw [if_neg h]
    simp [or_comm]

theorem insertKey_values {qv : List (String × List String)} {d : String}
    (h : ∀ p ∈ qv, p.2 = []) : ∀ p ∈ insertKey qv d, p.2 = [] := by
  unfold insertKey
  by_cases hk : hasKey qv d
  · rw [if_pos hk]; exact h
  · rw [if_neg hk]
    intro p hp
    rcases List.mem_append.mp hp with hp | hp
    · exact h p hp
    · simp at hp
      simp [hp]

theorem foldl_insertKey_keys (ds : List String) :
    ∀ (acc : List (String × List String)) (x : String),
      x ∈ (ds.foldl insertKey acc).map Prod.fst ↔
        x ∈ acc.map Prod.fst ∨ x ∈ ds := by
  induction ds with
  | nil => simp
  | cons d ds ih =>
    intro acc x
    simp only [List.foldl_cons, ih (insertKey acc d) x, insertKey_keys,
      List.mem_cons]
    tauto

theorem initVotes_keys (ds : List String) (x : String) :
    x ∈ (initVotes ds).map Prod.fst ↔ x ∈ ds := by
  unfold initVotes
  simp [foldl_insertKey_keys ds [] x]

theorem initVotes_values (ds : List String) :
    ∀ p ∈ initVotes ds, p.2 = [] := by
  unfold initVotes
  have H : ∀ (ds2 : List String) (acc : List (String × List String)),
      (∀ p ∈ acc, p.2 = []) → ∀ p ∈ ds2.foldl insertKey acc, p.2 = [] := by
    intro ds2
    induction ds2 with
    | nil => intro acc h; simpa using h
    | cons d ds2 ih =>
      intro acc h
      exact ih (insertKey acc d) (insertKey_values h)
  exact H ds [] (by simp)

theorem initVotes_sameKeys (ds : List String) : SameKeys (initVotes ds) ds := by
  constructor
  · intro p hp
    exact (initVotes_keys ds p.1).mp (List.mem_map_of_mem Prod.fst hp)
  · intro d hd
    exact (initVotes_keys ds d).mpr hd

theorem lookupVotes_initVotes (ds : List String) (d : String) :
    lookupVotes (initVotes ds) d = [] := by
  unfold lookupVotes
  rcases h : (initVotes ds).find? (fun p => p.1 == d) with _ | p
  · simp only [h]
  · simp only [h]
    exact initVotes_values ds p (List.mem_of_find?_eq_some h)

/-! ### Characterizations of the invariant checks -/

theorem check_type_ok_ok_iff (m : Machine) :
    check_type_ok m = .ok () ↔
      (0 ≤ m.epoch ∧ m.epoch ≤ m.cfg.epoch_max) ∧
      (0 ≤ m.lamport ∧ m.lamport ≤ m.cfg.lamport_max) ∧
      SameKeys m.quorum_votes m.cfg.domains ∧
      (∀ p ∈ m.quorum_votes, ∀ t ∈ p.2, t ∈ m.cfg.tokens) ∧
      0 ≤ m.provisional_timer := by
  unfold check_type_ok
  split_ifs with h1 h2 h3 h4 h5 <;> simp_all
  exact fun a b hab => h4 a b hab

theorem check_safe_state_ok_iff (m : Machine) :
    check_safe_state m = .ok () ↔
      (m.state = .SAFE_ON →
        ∃ d ∈ m.cfg.domains, "HALT" ∈ lookupVotes m.quorum_votes d) := by
  unfold check_safe_state
  split_ifs with h1 h2 <;> simp_all

theorem qualifies_iff (m : Machine) (d : String) :
    qualifies m d = true ↔
      2 ≤ (lookupVotes m.quorum_votes d).length ∧
        "HALT" ∈ lookupVotes m.quorum_votes d := by
  unfold qualifies
  rw [Bool.and_eq_true, decide_eq_true_iff, decide_eq_true_iff]

/-! ### Effect of the two mutations on the invariants -/

theorem appendVote_typeok {m : Machine} {d t : String} (h : TypeOk m)
    (hd : d ∈ m.cfg.domains) (ht : t ∈ m.cfg.tokens) :
    TypeOk (appendVote m d t) := by
  unfold TypeOk at *
  rw [check_type_ok_ok_iff] at h
  rw [check_type_ok_ok_iff]
  obtain ⟨he, hl, ⟨hk1, hk2⟩, htok, hpt⟩ := h
  refine ⟨he, hl, ⟨?_, ?_⟩, ?_, hpt⟩
  · intro p hp
    rcases mem_updateVotes hp with hp2 | ⟨p2, hp2, _, rfl⟩
    · exact hk1 p hp2
    · exact hk1 p2 hp2
  · intro d2 hd2
    show d2 ∈ (updateVotes m.quorum_votes d t).map Prod.fst
    rw [updateVotes_keys]
    exact hk2 d2 hd2
  · intro p hp
    rcases mem_updateVotes hp with hp2 | ⟨p2, hp2, _, rfl⟩
    · exact htok p hp2
    · intro t2 ht2
      rcases List.mem_append.mp ht2 with ht2 | ht2
      · exact htok p2 hp2 t2 ht2
      · rw [List.mem_singleton] at ht2
        exact ht2 ▸ ht

theorem appendVote_state (m : Machine) (d t : String) :
    (appendVote m d t).state = m.state := rfl

theorem appendVote_safestate {m : Machine} (d t : String)
    (hs : m.state = .OPERATIONAL) : SafeState (appendVote m d t) := by
  unfold SafeState
  rw [check_safe_state_ok_iff]
  intro hcontra
  rw [appendVote_state, hs] at hcontra
  cases hcontra

theorem bump_typeok {m : Machine} (h : TypeOk m)
    (hl : m.lamport < m.cfg.lamport_max) : TypeOk (bump m) := by
  unfold TypeOk at *
  rw [check_type_ok_ok_iff] at h
  rw [check_type_ok_ok_iff]
  simp only [bump]
  obtain ⟨he, ⟨hl1, _⟩, hk, htok, hpt⟩ := h
  exact ⟨he, ⟨by omega, by omega⟩, hk, htok, hpt⟩

theorem bump_safestate {m : Machine} {d : String} (hd : d ∈ m.cfg.domains)
    (hh : "HALT" ∈ lookupVotes m.quorum_votes d) : SafeState (bump m) := by
  unfold SafeState
  rw [check_safe_state_ok_iff]
  exact fun _ => ⟨d, hd, hh⟩

/-! ### Case analyses of the operations -/

theorem cast_vote_machine_cases (m : Machine) (d t : String) :
    (cast_vote m d t).1 = m ∨
    ((cast_vote m d t).1 = appendVote m d t ∧ d ∈ m.cfg.domains ∧
      t ∈ m.cfg.tokens ∧ m.state = .OPERATIONAL ∧
      ¬ 2 ≤ (lookupVotes m.quorum_votes d).length) := by
  unfold cast_vote
  by_cases h1 : d ∉ m.cfg.domains
  · rw [if_pos h1]; left; rfl
  · rw [if_neg h1]
    by_cases h2 : t ∉ m.cfg.tokens
    · rw [if_pos h2]; left; rfl
    · rw [if_neg h2]
      by_cases h3 : m.state ≠ .OPERATIONAL
      · rw [if_pos h3]; left; rfl
      · rw [if_neg h3]
        by_cases h4 : 2 ≤ (lookupVotes m.quorum_votes d).length
        · rw [if_pos h4]; left; rfl
        · rw [if_neg h4]
          right
          refine ⟨?_, not_not.mp h1, not_not.mp h2, not_not.mp h3, h4⟩
          rcases hc : check_type_ok (appendVote m d t) with e | u
          · simp [hc]
          · rcases hc2 : check_safe_state (appendVote m d t) with e | u <;>
              simp [hc, hc2]

theorem cast_vote_inv {m : Machine} (h : Inv m) (d t : String) :
    Inv (cast_vote m d t).1 := by
  rcases cast_vote_machine_cases m d t with h2 | ⟨h2, hd, ht, hs, _⟩
  · rw [h2]; exact h
  · rw [h2]
    exact ⟨appendVote_typeok h.1 hd ht, appendVote_safestate d t hs⟩

theorem cast_vote_state (m : Machine) (d t : String) :
    (cast_vote m d t).1.state = m.state := by
  rcases cast_vote_machine_cases m d t with h | ⟨h, _⟩ <;> rw [h] <;> rfl

theorem cast_vote_lamport (m : Machine) (d t : String) :
    (cast_vote m d t).1.lamport = m.lamport := by
  rcases cast_vote_machine_cases m d t with h | ⟨h, _⟩ <;> rw [h] <;> rfl

theorem cast_vote_votebound {m : Machine} (h : VoteBound m) (d t : String) :
    VoteBound (cast_vote m d t).1 := by
  rcases cast_vote_machine_cases m d t with h2 | ⟨h2, _, _, _, hlen⟩
  · rw [h2]; exact h
  · rw [h2]
    intro d2
    show (lookupVotes (updateVotes m.quorum_votes d t) d2).length ≤ 2
    by_cases hdd : d2 = d
    · subst hdd
      rcases hk : hasKey m.quorum_votes d2 with _ | _
      · rw [updateVotes_no_key t hk]
        exact h d2
      · rw [lookupVotes_updateVotes_self _ t hk, List.length_append]
        simp only [List.length_singleton]
        omega
    · rw [lookupVotes_updateVotes_ne _ t hdd]
      exact h d2

theorem halt_loop_machine_cases (m : Machine) (ds : List String) :
    (halt_loop m ds).1 = m ∨
    ((halt_loop m ds).1 = bump m ∧ m.lamport < m.cfg.lamport_max ∧
      ∃ d ∈ ds, qualifies m d = true) := by
  induction ds with
  | nil => left; rfl
  | cons d ds ih =>
    simp only [halt_loop]
    by_cases hq : qualifies m d = true
    · rw [if_pos hq]
      by_cases hl : m.cfg.lamport_max ≤ m.lamport
      · rw [if_pos hl]; left; rfl
      · rw [if_neg hl]
        right
        refine ⟨?_, lt_of_not_le hl, d, List.mem_cons_self d ds, hq⟩
        rcases hc : check_type_ok (bump m) with e | u
        · simp [hc]
        · rcases hc2 : check_safe_state (bump m) with e | u <;> simp [hc, hc2]
    · rw [if_neg hq]
      rcases ih with h | ⟨h1, h2, dd, hdd, hq2⟩
      · left; exact h
      · right; exact ⟨h1, h2, dd, List.mem_cons_of_mem _ hdd, hq2⟩

theorem halt_machine_cases (m : Machine) :
    (halt_precedence m).1 = m ∨
    ((halt_precedence m).1 = bump m ∧ m.state = .OPERATIONAL ∧
      m.lamport < m.cfg.lamport_max ∧
      ∃ d ∈ m.cfg.domains, qualifies m d = true) := by
  unfold halt_precedence
  split_ifs with h
  · left; rfl
  · rcases halt_loop_machine_cases m m.cfg.domains with h2 | ⟨h2, h3, h4⟩
    · left; exact h2
    · right; exact ⟨h2, not_not.mp h, h3, h4⟩

theorem halt_inv {m : Machine} (h : Inv m) : Inv (halt_precedence m).1 := by
  rcases halt_machine_cases m with h2 | ⟨h2, _, hl, d, hd, hq⟩
  · rw [h2]; exact h
  · rw [h2]
    exact ⟨bump_typeok h.1 hl,
      bump_safestate hd ((qualifies_iff m d).mp hq).2⟩

theorem halt_votes (m : Machine) :
    (halt_precedence m).1.quorum_votes = m.quorum_votes := by
  rcases halt_machine_cases m with h | ⟨h, _⟩ <;> rw [h] <;> rfl

theorem halt_loop_none {m : Machine} {ds : List String}
    (h : ∀ d ∈ ds, ¬ qualifies m d = true) :
    halt_loop m ds = (m, .ok false, []) := by
  induction ds with
  | nil => rfl
  | cons d ds ih =>
    simp only [halt_loop]
    rw [if_neg (h d (List.mem_cons_self d ds))]
    exact ih fun x hx => h x (List.mem_cons_of_mem d hx)

theorem halt_loop_overflow {m : Machine} {ds : List String} {d : String}
    (h : ds.find? (qualifies m) = some d)
    (hl : m.cfg.lamport_max ≤ m.lamport) :
    halt_loop m ds =
      (m, .error (.assertionError "LamportMax would be exceeded"), []) := by
  induction ds with
  | nil => simp at h
  | cons d2 ds ih =>
    simp only [halt_loop]
    by_cases hq : qualifies m d2 = true
    · rw [if_pos hq, if_pos hl]
    · rw [if_neg hq]
      rw [List.find?_cons_of_neg _ hq] at h
      exact ih h

theorem halt_loop_fire {m : Machine} {ds : List String} {d : String}
    (h : ds.find? (qualifies m) = some d)
    (hl : m.lamport < m.cfg.lamport_max)
    (ht : check_type_ok (bump m) = .ok ())
    (hs : check_safe_state (bump m) = .ok ()) :
    halt_loop m ds = (bump m, .ok true, [.haltQuorum d]) := by
  induction ds with
  | nil => simp at h
  | cons d2 ds ih =>
    simp only [halt_loop]
    by_cases hq : qualifies m d2 = true
    · rw [List.find?_cons_of_pos _ hq] at h
      injection h with h
      subst h
      rw [if_pos hq, if_neg (not_le.mpr hl), ht, hs]
    · rw [if_neg hq]
      rw [List.find?_cons_of_neg _ hq] at h
      exact ih h

/-- Complete characterization of `halt_precedence` from a TYPE-OK state: it
either refuses (`False`, unchanged), aborts on the lamport bound (unchanged),
or fires on the first qualifying domain in configured order. -/
theorem halt_spec (m : Machine) (h : TypeOk m) :
    (m.state ≠ .OPERATIONAL ∧ halt_precedence m = (m, .ok false, [])) ∨
    (m.state = .OPERATIONAL ∧ m.cfg.domains.find? (qualifies m) = none ∧
      halt_precedence m = (m, .ok false, [])) ∨
    (m.state = .OPERATIONAL ∧ m.cfg.lamport_max ≤ m.lamport ∧
      (∃ d, m.cfg.domains.find? (qualifies m) = some d) ∧
      halt_precedence m =
        (m, .error (.assertionError "LamportMax would be exceeded"), [])) ∨
    (m.state = .OPERATIONAL ∧ m.lamport < m.cfg.lamport_max ∧
      ∃ d, m.cfg.domains.find? (qualifies m) = some d ∧
        halt_precedence m = (bump m, .ok true, [.haltQuorum d])) := by
  by_cases hs : m.state = .OPERATIONAL
  · rcases hf : m.cfg.domains.find? (qualifies m) with _ | d
    · right; left
      refine ⟨hs, rfl, ?_⟩
      unfold halt_precedence
      rw [if_neg (not_not.mpr hs)]
      exact halt_loop_none (List.find?_eq_none.mp hf)
    · by_cases hl : m.cfg.lamport_max ≤ m.lamport
      · right; right; left
        refine ⟨hs, hl, ⟨d, rfl⟩, ?_⟩
        unfold halt_precedence
        rw [if_neg (not_not.mpr hs)]
        exact halt_loop_overflow hf hl
      · right; right; right
        have hlt := lt_of_not_le hl
        have hq := List.find?_some hf
        have hd := List.mem_of_find?_eq_some hf
        refine ⟨hs, hlt, d, rfl, ?_⟩
        unfold halt_precedence
        rw [if_neg (not_not.mpr hs)]
        exact halt_loop_fire hf hlt (bump_typeok h hlt)
          (bump_safestate hd ((qualifies_iff m d).mp hq).2)
  · left
    refine ⟨hs, ?_⟩
    unfold halt_precedence
    rw [if_pos hs]

theorem sos_machine (m : Machine) : (safe_on_stays_safe m).1 = m := by
  unfold safe_on_stays_safe
  split_ifs with h
  · rfl
  · rcases hc : check_type_ok m with e | u
    · simp [hc]
    · rcases hc2 : check_safe_state m with e | u <;> simp [hc, hc2]

theorem idle_machine (m : Machine) : (idle m).1 = m := by
  unfold idle
  rcases hc : check_type_ok m with e | u <;> simp [hc]

theorem auto_machine (m : Machine) : (auto_step m).1 = (halt_precedence m).1 := by
  unfold auto_step
  rcases hh : halt_precedence m with ⟨m2, r, evs⟩
  rcases r with e | b
  · rfl
  · cases b
    · by_cases hst : m2.state = .SAFE_ON
      · simp only [if_pos hst]
        rcases hs : safe_on_stays_safe m2 with ⟨m3, r2⟩
        have hm3 : m3 = m2 := by rw [← sos_machine m2, hs]
        rcases r2 with e | b2 <;> simp [hm3]
      · simp only [if_neg hst]
        rcases hs : idle m2 with ⟨m3, r2⟩
        have hm3 : m3 = m2 := by rw [← idle_machine m2, hs]
        rcases r2 with e | b2 <;> simp [hm3]
    · rfl

/-! ### Preservation along whole operation sequences -/

theorem applyOp_inv {m : Machine} (h : Inv m) (op : Op) : Inv (applyOp m op) := by
  cases op with
  | castVote d t => exact cast_vote_inv h d t
  | haltPrecedence => exact halt_inv h
  | safeOnStaysSafe => rw [applyOp, sos_machine]; exact h
  | idleOp => rw [applyOp, idle_machine]; exact h
  | autoAdvance => rw [applyOp, auto_machine]; exact halt_inv h

theorem applyOp_state_cases (m : Machine) (op : Op) :
    (applyOp m op).state = m.state ∨
    (m.state = .OPERATIONAL ∧ (applyOp m op).state = .SAFE_ON) := by
  have hhalt : (halt_precedence m).1.state = m.state ∨
      (m.state = .OPERATIONAL ∧ (halt_precedence m).1.state = .SAFE_ON) := by
    rcases halt_machine_cases m with h | ⟨h, hs, _⟩
    · left; rw [h]
    · right; exact ⟨hs, by rw [h]; rfl⟩
  cases op with
  | castVote d t => left; exact cast_vote_state m d t
  | haltPrecedence => exact hhalt
  | safeOnStaysSafe => left; rw [applyOp, sos_machine]
  | idleOp => left; rw [applyOp, idle_machine]
  | autoAdvance => rw [applyOp, auto_machine]; exact hhalt

theorem applyOp_safe_stays {m : Machine} (h : m.state = .SAFE_ON) (op : Op) :
    (applyOp m op).state = .SAFE_ON := by
  rcases applyOp_state_cases m op with h2 | ⟨h2, h3⟩
  · rw [h2]; exact h
  · exact h3

theorem applyOp_lamport_cases (m : Machine) (op : Op) :
    (applyOp m op).lamport = m.lamport ∨
    (applyOp m op).lamport = m.lamport + 1 := by
  have hhalt : (halt_precedence m).1.lamport = m.lamport ∨
      (halt_precedence m).1.lamport = m.lamport + 1 := by
    rcases halt_machine_cases m with h | ⟨h, _⟩
    · left; rw [h]
    · right; rw [h]; rfl
  cases op with
  | castVote d t => left; exact cast_vote_lamport m d t
  | haltPrecedence => exact hhalt
  | safeOnStaysSafe => left; rw [applyOp, sos_machine]
  | idleOp => left; rw [applyOp, idle_machine]
  | autoAdvance => rw [applyOp, auto_machine]; exact hhalt

theorem applyOp_lamport_mono (m : Machine) (op : Op) :
    m.lamport ≤ (applyOp m op).lamport := by
  rcases applyOp_lamport_cases m op with h | h <;> rw [h] <;> omega

theorem applyOp_votebound {m : Machine} (h : VoteBound m) (op : Op) :
    VoteBound (applyOp m op) := by
  have hhalt : VoteBound (halt_precedence m).1 := by
    intro d
    rw [halt_votes]
    exact h d
  cases op with
  | castVote d t => exact cast_vote_votebound h d t
  | haltPrecedence => exact hhalt
  | safeOnStaysSafe => rw [applyOp, sos_machine]; exact h
  | idleOp => rw [applyOp, idle_machine]; exact h
  | autoAdvance =>
    intro d
    rw [applyOp, auto_machine]
    exact hhalt d

theorem run_inv {m : Machine} (h : Inv m) (ops : List Op) : Inv (run m ops) := by
  induction ops generalizing m with
  | nil => exact h
  | cons op ops ih => exact ih (applyOp_inv h op)

theorem run_safe_stays {m : Machine} (h : m.state = .SAFE_ON) (ops : List Op) :
    (run m ops).state = .SAFE_ON := by
  induction ops generalizing m with
  | nil => exact h
  | cons op ops ih => exact ih (applyOp_safe_stays h op)

theorem run_lamport_mono (m : Machine) (ops : List Op) :
    m.lamport ≤ (run m ops).lamport := by
  induction ops generalizing m with
  | nil => exact le_refl _
  | cons op ops ih =>
    exact le_trans (applyOp_lamport_mono m op) (ih (applyOp m op))

theorem run_votebound {m : Machine} (h : VoteBound m) (ops : List Op) :
    VoteBound (run m ops) := by
  induction ops generalizing m with
  | nil => exact h
  | cons op ops ih => exact ih (applyOp_votebound h op)

end USPVirel

namespace Cli

open USPVirel (St Err Event Config Machine lookupVotes updateVotes qualifies
  appendVote bump)

theorem cli_check_type_ok_ok_iff (m : Machine) :
    check_type_ok m = .ok () ↔
      (0 ≤ m.epoch ∧ m.epoch ≤ m.cfg.epoch_max) ∧
      (0 ≤ m.lamport ∧ m.lamport ≤ m.cfg.lamport_max) ∧
      (∀ p ∈ m.quorum_votes, ∀ t ∈ p.2, t ∈ m.cfg.tokens) := by
  unfold check_type_ok
  split_ifs with h1 h2 h3 <;> simp_all
  exact fun a b hab => h3 a b hab

theorem cli_check_safe_state_ok_iff (m : Machine) :
    check_safe_state m = .ok () ↔
      (m.state = .SAFE_ON →
        ∃ d ∈ m.cfg.domains, "HALT" ∈ lookupVotes m.quorum_votes d) := by
  unfold check_safe_state
  split_ifs with h1 h2 <;> simp_all

/-- The core invariants imply that the CLI copy's (weaker) invariant check
passes. -/
theorem assert_invariants_ok {m : Machine} (h : USPVirel.Inv m) :
    assert_invariants m = .ok () := by
  unfold assert_invariants
  have ht : check_type_ok m = .ok () := by
    rw [cli_check_type_ok_ok_iff]
    have h2 := (USPVirel.check_type_ok_ok_iff m).mp h.1
    exact ⟨h2.1, h2.2.1, h2.2.2.2.1⟩
  rw [ht]
  rw [cli_check_safe_state_ok_iff]
  exact (USPVirel.check_safe_state_ok_iff m).mp h.2

theorem cli_halt_loop_none {m : Machine} {ds : List String}
    (h : ∀ d ∈ ds, ¬ qualifies m d = true) :
    halt_loop m ds = (m, .ok false) := by
  induction ds with
  | nil => rfl
  | cons d ds ih =>
    simp only [halt_loop]
    rw [if_neg (h d (List.mem_cons_self d ds))]
    exact ih fun x hx => h x (List.mem_cons_of_mem d hx)

theorem cli_halt_loop_fire {m : Machine} {ds : List String} {d : String}
    (h : ds.find? (qualifies m) = some d)
    (hinv : assert_invariants (bump m) = .ok ()) :
    halt_loop m ds = (bump m, .ok true) := by
  induction ds with
  | nil => simp at h
  | cons d2 ds ih =>
    simp only [halt_loop]
    by_cases hq : qualifies m d2 = true
    · rw [if_pos hq, hinv]
    · rw [if_neg hq]
      rw [List.find?_cons_of_neg _ hq] at h
      exact ih h

end Cli

namespace USPVirel

/-! ### Construction lemmas -/

theorem mkMachine_ok {cfg : Config} {st : St} {e l : Int}
    {qv : List (String × List String)} {t : Int} {m : Machine}
    (h : mkMachine cfg st e l qv t = .ok m) :
    m = initState cfg st e l qv t ∧ TypeOk m := by
  unfold mkMachine at h
  split at h
  · injection h with h
    subst h
    rename_i u heq
    cases u
    exact ⟨rfl, heq⟩
  · cases h

theorem mkMachine_ok_iff (cfg : Config) (st : St) (e l : Int)
    (qv : List (String × List String)) (t : Int) :
    (∃ m, mkMachine cfg st e l qv t = .ok m) ↔
      TypeOk (initState cfg st e l qv t) := by
  unfold mkMachine
  rcases hc : check_type_ok (initState cfg st e l qv t) with er | u
  · constructor
    · rintro ⟨m, hm⟩
      cases hm
    · intro ht
      have ht2 : check_type_ok (initState cfg st e l qv t) = .ok () := ht
      rw [hc] at ht2
      cases ht2
  · constructor
    · intro _
      show check_type_ok (initState cfg st e l qv t) = .ok ()
      cases u
      rw [hc]
    · intro _
      exact ⟨_, rfl⟩

theorem mkDefault_ok {cfg : Config} {m : Machine} (h : mkDefault cfg = .ok m) :
    m = ⟨cfg, .OPERATIONAL, 0, 0, initVotes cfg.domains, 0⟩ ∧ Inv m ∧
      VoteBound m := by
  obtain ⟨hm, ht⟩ := mkMachine_ok h
  have hm2 : m = ⟨cfg, .OPERATIONAL, 0, 0, initVotes cfg.domains, 0⟩ := hm
  subst hm2
  refine ⟨rfl, ⟨ht, ?_⟩, ?_⟩
  · show check_safe_state _ = .ok ()
    rw [check_safe_state_ok_iff]
    intro hs
    simp at hs
  · intro d
    show (lookupVotes (initVotes cfg.domains) d).length ≤ 2
    rw [lookupVotes_initVotes]
    simp

theorem typeok_default_iff (cfg : Config) :
    TypeOk (initState cfg .OPERATIONAL 0 0 [] 0) ↔
      0 ≤ cfg.epoch_max ∧ 0 ≤ cfg.lamport_max := by
  show check_type_ok _ = .ok () ↔ _
  rw [check_type_ok_ok_iff]
  constructor
  · rintro ⟨⟨_, he⟩, ⟨_, hl⟩, _⟩
    exact ⟨he, hl⟩
  · rintro ⟨he, hl⟩
    refine ⟨⟨le_refl 0, he⟩, ⟨le_refl 0, hl⟩, initVotes_sameKeys cfg.domains,
      ?_, le_refl 0⟩
    intro p hp t2 ht2
    have hv : p.2 = [] := initVotes_values cfg.domains p hp
    rw [hv] at ht2
    cases ht2

instance (m : Machine) : Decidable (TypeOk m) := by
  unfold TypeOk; infer_instance

instance (m : Machine) : Decidable (SafeState m) := by
  unfold SafeState; infer_instance

instance (m : Machine) : Decidable (Inv m) := by
  unfold Inv; infer_instance

/-! ### Concrete sample machines (the spec's scenario configuration) -/

/-- The configuration used by the spec's test scenarios:
`domains={"A","B"}, tokens={"HALT","RES"}, epoch_max=5, lamport_max=5`. -/
def cfgAB : Config := ⟨["A", "B"], ["HALT", "RES"], 5, 5, 0⟩

/-- The default machine for `cfgAB`. -/
def mAB : Machine := ⟨cfgAB, .OPERATIONAL, 0, 0, [("A", []), ("B", [])], 0⟩

/-- `mAB` after two HALT votes in domain A. -/
def mHH : Machine :=
  ⟨cfgAB, .OPERATIONAL, 0, 0, [("A", ["HALT", "HALT"]), ("B", [])], 0⟩

/-- A SAFE_ON machine holding a HALT quorum in domain A. -/
def mSafe : Machine :=
  ⟨cfgAB, .SAFE_ON, 0, 1, [("A", ["HALT", "HALT"]), ("B", [])], 0⟩

/-- `mHH` with the lamport counter already at `lamport_max`. -/
def mFull : Machine :=
  ⟨cfgAB, .OPERATIONAL, 0, 5, [("A", ["HALT", "HALT"]), ("B", [])], 0⟩

end USPVirel

namespace USPVirel

/-- C1: for every sequence of public operations applied to a machine obtained
from a valid (default) construction, TYPE-OK and SAFE-STATE hold after every
operation; in particular in state SAFE_ON some configured domain's vote
sequence contains "HALT".  (Every prefix of a sequence is itself a sequence,
so the universal quantification over `ops` covers every intermediate
state.) -/
theorem C1_invariants_hold (cfg : Config) (m0 : Machine) (ops : List Op)
    (h : mkDefault cfg = .ok m0) :
    Inv (run m0 ops) ∧
      ((run m0 ops).state = .SAFE_ON →
        ∃ d ∈ (run m0 ops).cfg.domains,
          "HALT" ∈ lookupVotes (run m0 ops).quorum_votes d) := by
  obtain ⟨_, hinv, _⟩ := mkDefault_ok h
  have hrun := run_inv hinv ops
  exact ⟨hrun, (check_safe_state_ok_iff _).mp hrun.2⟩

/-- Witness for C1: the scenario-1 trace (two votes in A, then
HaltPrecedence, then AutoAdvance) from the default construction. -/
theorem C1_invariants_hold_witness :
    Inv (run mAB [Op.castVote "A" "RES", Op.castVote "A" "HALT",
      Op.haltPrecedence, Op.autoAdvance]) ∧
      ((run mAB [Op.castVote "A" "RES", Op.castVote "A" "HALT",
          Op.haltPrecedence, Op.autoAdvance]).state = .SAFE_ON →
        ∃ d ∈ (run mAB [Op.castVote "A" "RES", Op.castVote "A" "HALT",
            Op.haltPrecedence, Op.autoAdvance]).cfg.domains,
          "HALT" ∈ lookupVotes (run mAB [Op.castVote "A" "RES",
            Op.castVote "A" "HALT", Op.haltPrecedence,
            Op.autoAdvance]).quorum_votes d) :=
  C1_invariants_hold cfgAB mAB
    [Op.castVote "A" "RES", Op.castVote "A" "HALT", Op.haltPrecedence,
      Op.autoAdvance] (by decide)

/-- C2: once `state = SAFE_ON` no sequence of public operations brings it
back to OPERATIONAL; `cast_vote`, `safe_on_stays_safe` and `idle` never
change `state` (the latter two never change the machine at all), and the
only state change any operation can make is OPERATIONAL to SAFE_ON. -/
theorem C2_irreversible (m : Machine) :
    (∀ ops : List Op, m.state = .SAFE_ON → (run m ops).state = .SAFE_ON) ∧
    (∀ d t, (cast_vote m d t).1.state = m.state) ∧
    (safe_on_stays_safe m).1 = m ∧
    (idle m).1 = m ∧
    (∀ op : Op, (applyOp m op).state = m.state ∨
      (m.state = .OPERATIONAL ∧ (applyOp m op).state = .SAFE_ON)) :=
  ⟨fun ops h => run_safe_stays h ops, cast_vote_state m, sos_machine m,
    idle_machine m, applyOp_state_cases m⟩

/-- Witness for C2: a SAFE_ON machine stays SAFE_ON under a concrete
operation sequence. -/
theorem C2_irreversible_witness :
    (run mSafe [Op.autoAdvance, Op.castVote "B" "RES", Op.idleOp,
      Op.haltPrecedence]).state = .SAFE_ON ∧
    (cast_vote mSafe "A" "RES").1.state = mSafe.state :=
  ⟨(C2_irreversible mSafe).1
      [Op.autoAdvance, Op.castVote "B" "RES", Op.idleOp, Op.haltPrecedence]
      (by decide),
    (C2_irreversible mSafe).2.1 "A" "RES"⟩

/-- C3: the lamport counter is non-decreasing over any operation sequence;
it increases by exactly 1 on a `halt_precedence` call returning `True` and
is unchanged by every other operation and by any non-firing call
(`auto_step`'s effect on lamport is exactly its inner `halt_precedence`
call's effect). -/
theorem C3_lamport (m : Machine) (h : TypeOk m) :
    (∀ ops : List Op, m.lamport ≤ (run m ops).lamport) ∧
    (∀ d t, (cast_vote m d t).1.lamport = m.lamport) ∧
    (safe_on_stays_safe m).1.lamport = m.lamport ∧
    (idle m).1.lamport = m.lamport ∧
    ((halt_precedence m).2.1 = .ok true →
      (halt_precedence m).1.lamport = m.lamport + 1) ∧
    ((halt_precedence m).2.1 ≠ .ok true →
      (halt_precedence m).1.lamport = m.lamport) ∧
    (auto_step m).1.lamport = (halt_precedence m).1.lamport := by
  refine ⟨run_lamport_mono m, cast_vote_lamport m, by rw [sos_machine],
    by rw [idle_machine], ?_, ?_, by rw [auto_machine]⟩
  · intro hfire
    rcases halt_spec m h with ⟨_, he⟩ | ⟨_, _, he⟩ | ⟨_, _, _, he⟩ |
      ⟨_, _, d, hf, he⟩
    · simp [he] at hfire
    · simp [he] at hfire
    · simp [he] at hfire
    · rw [he]
      rfl
  · intro hnot
    rcases halt_spec m h with ⟨_, he⟩ | ⟨_, _, he⟩ | ⟨_, _, _, he⟩ |
      ⟨_, _, d, hf, he⟩
    · rw [he]
    · rw [he]
    · rw [he]
    · exact absurd (by rw [he]) hnot

/-- Witness for C3: the HALT quorum machine fires and its lamport counter
goes from 0 to 1. -/
theorem C3_lamport_witness :
    TypeOk mHH ∧ (halt_precedence mHH).1.lamport = mHH.lamport + 1 :=
  ⟨by decide, (C3_lamport mHH (by decide)).2.2.2.2.1 (by decide)⟩

/-- C4: `halt_precedence` returns `True` exactly when the state is
OPERATIONAL, the lamport counter is below its bound, and some configured
domain has at least two votes containing "HALT"; when it fires, the winning
domain (named in the emitted trace event) is the first qualifying domain in
configured order (`List.find?`), and a domain without a "HALT" vote — such
as one with votes ["RES","RES"] — is never the winner. -/
theorem C4_halt_guard (m : Machine) (h : TypeOk m) :
    ((halt_precedence m).2.1 = .ok true ↔
      m.state = .OPERATIONAL ∧ m.lamport < m.cfg.lamport_max ∧
        ∃ d ∈ m.cfg.domains,
          2 ≤ (lookupVotes m.quorum_votes d).length ∧
            "HALT" ∈ lookupVotes m.quorum_votes d) ∧
    ((halt_precedence m).2.1 = .ok true →
      ∃ w, m.cfg.domains.find? (qualifies m) = some w ∧
        (halt_precedence m).2.2 = [Event.haltQuorum w] ∧
        "HALT" ∈ lookupVotes m.quorum_votes w) ∧
    (∀ d, "HALT" ∉ lookupVotes m.quorum_votes d →
      m.cfg.domains.find? (qualifies m) ≠ some d) := by
  refine ⟨⟨?_, ?_⟩, ?_, ?_⟩
  · intro hfire
    rcases halt_spec m h with ⟨_, he⟩ | ⟨_, _, he⟩ | ⟨_, _, _, he⟩ |
      ⟨hs, hl, d, hf, he⟩
    · simp [he] at hfire
    · simp [he] at hfire
    · simp [he] at hfire
    · exact ⟨hs, hl, d, List.mem_of_find?_eq_some hf,
        (qualifies_iff m d).mp (List.find?_some hf)⟩
  · rintro ⟨hs, hl, d, hd, hq2⟩
    have hqd : qualifies m d = true := (qualifies_iff m d).mpr hq2
    rcases halt_spec m h with ⟨hs2, he⟩ | ⟨_, hf, he⟩ | ⟨_, hl2, _, he⟩ |
      ⟨_, _, d2, hf, he⟩
    · exact absurd hs hs2
    · exact absurd hqd (List.find?_eq_none.mp hf d hd)
    · omega
    · rw [he]
  · intro hfire
    rcases halt_spec m h with ⟨_, he⟩ | ⟨_, _, he⟩ | ⟨_, _, _, he⟩ |
      ⟨_, _, d, hf, he⟩
    · simp [he] at hfire
    · simp [he] at hfire
    · simp [he] at hfire
    · exact ⟨d, hf, by rw [he],
        ((qualifies_iff m d).mp (List.find?_some hf)).2⟩
  · intro d hnh hcontra
    exact hnh ((qualifies_iff m d).mp (List.find?_some hcontra)).2

/-- Witness for C4: with a HALT quorum in domain A the transition fires and
the winning domain is A. -/
theorem C4_halt_guard_witness :
    (halt_precedence mHH).2.1 = .ok true ∧
      ∃ w, mHH.cfg.domains.find? (qualifies mHH) = some w ∧
        (halt_precedence mHH).2.2 = [Event.haltQuorum w] ∧
        "HALT" ∈ lookupVotes mHH.quorum_votes w := by
  have hfire : (halt_precedence mHH).2.1 = .ok true :=
    (C4_halt_guard mHH (by decide)).1.mpr (by decide)
  exact ⟨hfire, (C4_halt_guard mHH (by decide)).2.1 hfire⟩

/-- C5: from a valid (default) construction every domain's vote sequence has
length at most 2 after any operation sequence, and `cast_vote` on a full
domain (with configured domain and token) returns `False` and changes
nothing. -/
theorem C5_vote_bound :
    (∀ (cfg : Config) (m0 : Machine), mkDefault cfg = .ok m0 →
      ∀ (ops : List Op) (d : String),
        (lookupVotes (run m0 ops).quorum_votes d).length ≤ 2) ∧
    (∀ (m : Machine) (d t : String), d ∈ m.cfg.domains → t ∈ m.cfg.tokens →
      2 ≤ (lookupVotes m.quorum_votes d).length →
      cast_vote m d t = (m, .ok false, [])) := by
  constructor
  · intro cfg m0 h ops d
    obtain ⟨_, _, hvb⟩ := mkDefault_ok h
    exact run_votebound hvb ops d
  · intro m d t hd ht hlen
    unfold cast_vote
    rw [if_neg (not_not.mpr hd), if_neg (not_not.mpr ht)]
    by_cases hs : m.state ≠ .OPERATIONAL
    · rw [if_pos hs]
    · rw [if_neg hs, if_pos hlen]

/-- Witness for C5: scenario 3 — after two HALT votes in A a third vote is
refused and the machine is unchanged. -/
theorem C5_vote_bound_witness :
    (lookupVotes (run mAB [Op.castVote "A" "HALT", Op.castVote "A" "HALT",
        Op.castVote "A" "RES"]).quorum_votes "A").length ≤ 2 ∧
    cast_vote mHH "A" "RES" = (mHH, .ok false, []) :=
  ⟨C5_vote_bound.1 cfgAB mAB (by decide)
      [Op.castVote "A" "HALT", Op.castVote "A" "HALT", Op.castVote "A" "RES"]
      "A",
    C5_vote_bound.2 mHH "A" "RES" (by decide) (by decide) (by decide)⟩

end USPVirel

namespace USPVirel

/-- C6: when the structural guard of `halt_precedence` holds (OPERATIONAL
state and a qualifying HALT domain) but the lamport counter is already at
`lamport_max`, the call raises the counter-overflow `AssertionError` instead
of returning `False`, and the machine is unchanged (the error is raised
before any mutation). -/
theorem C6_counter_overflow (m : Machine)
    (hs : m.state = .OPERATIONAL)
    (hq : ∃ d ∈ m.cfg.domains, 2 ≤ (lookupVotes m.quorum_votes d).length ∧
      "HALT" ∈ lookupVotes m.quorum_votes d)
    (hl : m.lamport = m.cfg.lamport_max) :
    halt_precedence m =
      (m, .error (.assertionError "LamportMax would be exceeded"), []) := by
  obtain ⟨d, hd, hq2⟩ := hq
  have hqd : qualifies m d = true := (qualifies_iff m d).mpr hq2
  have hw : ∃ w, m.cfg.domains.find? (qualifies m) = some w := by
    rcases hf : m.cfg.domains.find? (qualifies m) with _ | w
    · exact absurd hqd (List.find?_eq_none.mp hf d hd)
    · exact ⟨w, rfl⟩
  obtain ⟨w, hw2⟩ := hw
  unfold halt_precedence
  rw [if_neg (not_not.mpr hs)]
  exact halt_loop_overflow hw2 (le_of_eq hl.symm)

/-- Witness for C6: the machine with a HALT quorum and `lamport = 5 =
lamport_max` gets the overflow error and stays unchanged. -/
theorem C6_counter_overflow_witness :
    halt_precedence mFull =
      (mFull, .error (.assertionError "LamportMax would be exceeded"), []) :=
  C6_counter_overflow mFull (by decide) (by decide) (by decide)

/-- C7: in every machine state (including SAFE_ON) the core `cast_vote`
raises a "Unknown domain" `ValueError` for an unconfigured domain and a
"Unknown token" `ValueError` for an unconfigured token, leaving the machine
unchanged; these raised errors are distinguishable from the boolean `False`
returned when a guard is merely unsatisfied. -/
theorem C7_contract_errors (m : Machine) (d t : String) :
    (d ∉ m.cfg.domains →
      cast_vote m d t =
        (m, .error (.valueError ("Unknown domain: " ++ d)), [])) ∧
    (d ∈ m.cfg.domains → t ∉ m.cfg.tokens →
      cast_vote m d t =
        (m, .error (.valueError ("Unknown token: " ++ t)), [])) ∧
    (∀ e : Err, (cast_vote m d t).2.1 = .error e →
      (cast_vote m d t).2.1 ≠ .ok false ∧ (cast_vote m d t).2.1 ≠ .ok true) := by
  refine ⟨?_, ?_, ?_⟩
  · intro hd
    unfold cast_vote
    rw [if_pos hd]
  · intro hd ht
    unfold cast_vote
    rw [if_neg (not_not.mpr hd), if_pos ht]
  · intro e he
    rw [he]
    exact ⟨by simp, by simp⟩

/-- Witness for C7: unknown domain "Z" and unknown token "X" against the
SAFE_ON machine. -/
theorem C7_contract_errors_witness :
    cast_vote mSafe "Z" "HALT" =
      (mSafe, .error (.valueError ("Unknown domain: " ++ "Z")), []) ∧
    cast_vote mSafe "A" "X" =
      (mSafe, .error (.valueError ("Unknown token: " ++ "X")), []) :=
  ⟨(C7_contract_errors mSafe "Z" "HALT").1 (by decide),
    (C7_contract_errors mSafe "A" "X").2.1 (by decide) (by decide)⟩

end USPVirel

namespace Cli

open USPVirel (St Err Event Config Machine lookupVotes updateVotes qualifies
  appendVote bump)

/-- From a state satisfying the core invariants with the lamport counter
below its bound, the CLI `halt_precedence` either refuses unchanged or fires
on some qualifying domain. -/
theorem halt_spec_inv {m : Machine} (h : USPVirel.Inv m)
    (hl : m.lamport < m.cfg.lamport_max) :
    halt_precedence m = (m, .ok false) ∨
    (halt_precedence m = (bump m, .ok true) ∧ m.state = .OPERATIONAL) := by
  unfold halt_precedence
  by_cases hs : m.state = .OPERATIONAL
  · rw [if_neg (not_not.mpr hs)]
    rcases hf : m.cfg.domains.find? (qualifies m) with _ | d
    · left
      exact cli_halt_loop_none (List.find?_eq_none.mp hf)
    · right
      refine ⟨?_, hs⟩
      apply cli_halt_loop_fire hf
      apply assert_invariants_ok
      exact ⟨USPVirel.bump_typeok h.1 hl,
        USPVirel.bump_safestate (List.mem_of_find?_eq_some hf)
          ((USPVirel.qualifies_iff m d).mp (List.find?_some hf)).2⟩
  · rw [if_pos hs]
    left
    rfl

end Cli

namespace USPVirel

/-- C8: the auto-advance step (`step()` of the CLI program, the variant that
returns a tag) tries `halt_precedence` first and returns its tag exactly
when it fired; otherwise it returns the SafeOnStaysSafe tag exactly in state
SAFE_ON and the Idle tag otherwise.  `cast_vote` is never invoked: the vote
map is unchanged by `step` and by the core `auto_step`. -/
theorem C8_auto_advance (m : Machine) (h : Inv m)
    (hl : m.lamport < m.cfg.lamport_max) :
    ((Cli.step m).2 = .ok "halt_precedence" ↔
      (Cli.halt_precedence m).2 = .ok true) ∧
    ((Cli.step m).2 = .ok "safe_on" ↔
      (Cli.halt_precedence m).2 = .ok false ∧ m.state = .SAFE_ON) ∧
    ((Cli.step m).2 = .ok "idle" ↔
      (Cli.halt_precedence m).2 = .ok false ∧ m.state ≠ .SAFE_ON) ∧
    (Cli.step m).1.quorum_votes = m.quorum_votes ∧
    (auto_step m).1.quorum_votes = m.quorum_votes := by
  have hauto : (auto_step m).1.quorum_votes = m.quorum_votes := by
    rw [auto_machine, halt_votes]
  have hsos : m.state = .SAFE_ON → Cli.safe_on_stays_safe m = (m, .ok true) := by
    intro hs2
    unfold Cli.safe_on_stays_safe
    rw [if_pos hs2, Cli.assert_invariants_ok h]
  have hidle : Cli.idle m = (m, .ok true) := by
    unfold Cli.idle
    rw [Cli.assert_invariants_ok h]
  rcases Cli.halt_spec_inv h hl with he | ⟨he, hs⟩
  · by_cases hs2 : m.state = .SAFE_ON
    · have hstep : Cli.step m = (m, .ok "safe_on") := by
        unfold Cli.step
        rw [he]
        dsimp only
        rw [if_pos hs2, hsos hs2]
      rw [hstep, he]
      exact ⟨by simp, by simp [hs2], by simp [hs2], rfl, hauto⟩
    · have hstep : Cli.step m = (m, .ok "idle") := by
        unfold Cli.step
        rw [he]
        dsimp only
        rw [if_neg hs2, hidle]
      rw [hstep, he]
      exact ⟨by simp, by simp [hs2], by simp [hs2], rfl, hauto⟩
  · have hstep : Cli.step m = (bump m, .ok "halt_precedence") := by
      unfold Cli.step
      rw [he]
    rw [hstep, he]
    refine ⟨by simp, by simp, by simp, ?_, hauto⟩
    rfl

/-- Witness for C8: the three tags on the HALT-quorum machine, the SAFE_ON
machine and the fresh machine. -/
theorem C8_auto_advance_witness :
    (Cli.step mHH).2 = .ok "halt_precedence" ∧
    (Cli.step mSafe).2 = .ok "safe_on" ∧
    (Cli.step mAB).2 = .ok "idle" :=
  ⟨(C8_auto_advance mHH (by decide) (by decide)).1.mpr (by decide),
    (C8_auto_advance mSafe (by decide) (by decide)).2.1.mpr (by decide),
    (C8_auto_advance mAB (by decide) (by decide)).2.2.1.mpr (by decide)⟩

/-- C9 counterexample: construction accepts an empty domain set and a
duplicated domain list (Python's dict comprehension silently deduplicates),
producing machines instead of rejecting the malformed configurations. -/
theorem C9_counterexample :
    mkMachine ⟨[], ["HALT", "RES"], 5, 5, 0⟩ .OPERATIONAL 0 0 [] 0 =
      .ok ⟨⟨[], ["HALT", "RES"], 5, 5, 0⟩, .OPERATIONAL, 0, 0, [], 0⟩ ∧
    mkMachine ⟨["A", "A"], ["HALT", "RES"], 5, 5, 0⟩ .OPERATIONAL 0 0 [] 0 =
      .ok ⟨⟨["A", "A"], ["HALT", "RES"], 5, 5, 0⟩, .OPERATIONAL, 0, 0,
        [("A", [])], 0⟩ := by
  exact ⟨by decide, by decide⟩

/-- C9 (amended): construction signals an invalid-configuration error
exactly when the initialized state fails TYPE-OK; with the default zeroed
counters this rejects a negative `epoch_max` or `lamport_max` and accepts
everything else (in particular empty or duplicated domain lists and a
negative `hold_ms`). -/
theorem C9_construction_amended :
    (∀ (cfg : Config) (st : St) (e l : Int)
      (qv : List (String × List String)) (t : Int) (m : Machine),
      mkMachine cfg st e l qv t = .ok m → TypeOk m) ∧
    (∀ cfg : Config, (∃ m, mkDefault cfg = .ok m) ↔
      0 ≤ cfg.epoch_max ∧ 0 ≤ cfg.lamport_max) := by
  constructor
  · intro cfg st e l qv t m h
    exact (mkMachine_ok h).2
  · intro cfg
    rw [mkDefault, mkMachine_ok_iff, typeok_default_iff]

/-- Witness for C9: a machine built with explicit votes is TYPE-OK, the
scenario configuration constructs, and a negative bound is rejected. -/
theorem C9_construction_witness :
    TypeOk mAB ∧ (∃ m, mkDefault cfgAB = .ok m) ∧
      ¬ ∃ m, mkDefault ⟨["A"], ["HALT"], -1, 5, 0⟩ = .ok m :=
  ⟨C9_construction_amended.1 cfgAB .OPERATIONAL 0 0 [("A", []), ("B", [])] 0
      mAB (by decide),
    (C9_construction_amended.2 cfgAB).mpr (by decide),
    fun hc => by
      have h2 := (C9_construction_amended.2 ⟨["A"], ["HALT"], -1, 5, 0⟩).mp hc
      exact absurd h2 (by decide)⟩

/-- C10 counterexample: the two `USPVirel` definitions are not behaviorally
equivalent.  On an unknown domain the core raises a `ValueError` while the
CLI copy returns `False`; at `lamport = lamport_max` with a HALT quorum the
core raises before mutating while the CLI copy transitions to SAFE_ON and
increments `lamport` past its bound before its invariant check fails. -/
theorem C10_counterexample :
    (cast_vote mAB "Z" "HALT").2.1 =
      .error (.valueError ("Unknown domain: " ++ "Z")) ∧
    (Cli.cast_vote mAB "Z" "HALT").2 = .ok false ∧
    (cast_vote mAB "Z" "HALT").1 = mAB ∧
    (Cli.cast_vote mAB "Z" "HALT").1 = mAB ∧
    (halt_precedence mFull).1 = mFull ∧
    (Cli.halt_precedence mFull).1.lamport = mFull.lamport + 1 ∧
    (Cli.halt_precedence mFull).1.state = .SAFE_ON := by
  refine ⟨by decide, by decide, by decide, by decide, by decide, by decide,
    by decide⟩

/-- C10 (amended): on their common well-behaved domain the two definitions
agree: from any state satisfying the invariants with `lamport` below its
bound, `cast_vote` with configured domain and token, `halt_precedence`, and
`safe_on_stays_safe` produce identical results and successor machines in
both implementations, and `idle` leaves the machine unchanged in both; they
diverge on `cast_vote` contract violations and on the lamport-overflow
path. -/
theorem C10_equiv_amended (m : Machine) (h : Inv m)
    (hl : m.lamport < m.cfg.lamport_max) :
    (∀ d t, d ∈ m.cfg.domains → t ∈ m.cfg.tokens →
      (cast_vote m d t).1 = (Cli.cast_vote m d t).1 ∧
      (cast_vote m d t).2.1 = (Cli.cast_vote m d t).2) ∧
    ((halt_precedence m).1 = (Cli.halt_precedence m).1 ∧
      (halt_precedence m).2.1 = (Cli.halt_precedence m).2) ∧
    safe_on_stays_safe m = Cli.safe_on_stays_safe m ∧
    (idle m).1 = m ∧ (Cli.idle m).1 = m := by
  have htok : check_type_ok m = .ok () := h.1
  have hss : check_safe_state m = .ok () := h.2
  refine ⟨?_, ?_, ?_, idle_machine m, ?_⟩
  · intro d t hd ht
    unfold cast_vote Cli.cast_vote
    by_cases hs : m.state ≠ .OPERATIONAL
    · rw [if_neg (not_not.mpr hd), if_neg (not_not.mpr ht), if_pos hs,
        if_pos hs]
      exact ⟨rfl, rfl⟩
    · have hs2 := not_not.mp hs
      rw [if_neg (not_not.mpr hd), if_neg (not_not.mpr ht), if_neg hs,
        if_neg hs, if_neg (not_not.mpr hd), if_neg (not_not.mpr ht)]
      by_cases hlen : 2 ≤ (lookupVotes m.quorum_votes d).length
      · rw [if_pos hlen, if_pos hlen]
        exact ⟨rfl, rfl⟩
      · have hinv2 : Inv (appendVote m d t) :=
          ⟨appendVote_typeok h.1 hd ht, appendVote_safestate d t hs2⟩
        have h1 : check_type_ok (appendVote m d t) = .ok () := hinv2.1
        have h2 : check_safe_state (appendVote m d t) = .ok () := hinv2.2
        rw [if_neg hlen, if_neg hlen, h1, h2, Cli.assert_invariants_ok hinv2]
        exact ⟨rfl, rfl⟩
  · by_cases hs : m.state = .OPERATIONAL
    · rcases hf : m.cfg.domains.find? (qualifies m) with _ | d
      · have h1 := halt_loop_none (m := m) (List.find?_eq_none.mp hf)
        have h2 := Cli.cli_halt_loop_none (m := m) (List.find?_eq_none.mp hf)
        unfold halt_precedence Cli.halt_precedence
        rw [if_neg (not_not.mpr hs), if_neg (not_not.mpr hs), h1, h2]
        exact ⟨rfl, rfl⟩
      · have hb : Inv (bump m) :=
          ⟨bump_typeok h.1 hl,
            bump_safestate (List.mem_of_find?_eq_some hf)
              ((qualifies_iff m d).mp (List.find?_some hf)).2⟩
        have h1 := halt_loop_fire hf hl hb.1 hb.2
        have h2 := Cli.cli_halt_loop_fire hf (Cli.assert_invariants_ok hb)
        unfold halt_precedence Cli.halt_precedence
        rw [if_neg (not_not.mpr hs), if_neg (not_not.mpr hs), h1, h2]
        exact ⟨rfl, rfl⟩
    · unfold halt_precedence Cli.halt_precedence
      rw [if_pos hs, if_pos hs]
      exact ⟨rfl, rfl⟩
  · unfold safe_on_stays_safe Cli.safe_on_stays_safe
    by_cases hs : m.state = .SAFE_ON
    · rw [if_neg (not_not.mpr hs), if_pos hs, htok, hss,
        Cli.assert_invariants_ok h]
    · rw [if_pos hs, if_neg hs]
  · unfold Cli.idle
    rw [Cli.assert_invariants_ok h]

/-- Witness for C10 (amended): agreement at the scenario machine on a
configured vote and on the halt transition. -/
theorem C10_equiv_witness :
    ((cast_vote mAB "A" "HALT").1 = (Cli.cast_vote mAB "A" "HALT").1 ∧
      (cast_vote mAB "A" "HALT").2.1 = (Cli.cast_vote mAB "A" "HALT").2) ∧
    (halt_precedence mHH).1 = (Cli.halt_precedence mHH).1 ∧
    (halt_precedence mHH).2.1 = (Cli.halt_precedence mHH).2 :=
  ⟨(C10_equiv_amended mAB (by decide) (by decide)).1 "A" "HALT" (by decide)
      (by decide),
    (C10_equiv_amended mHH (by decide) (by decide)).2.1⟩

end USPVirel
